import Mathlib

/-!
Verification development for the TF-IDF retrieval core (`vectorizer.py`) and the
document-type heuristic scorer (`rag_llm_pipeline.py`, function
`_heuristic_detect_document_type`) of the trade-document compliance analyzer.

Modelling conventions:
* Python strings are modelled as `List Char` (entry points take `String` and use `.data`);
  tokens are `List Char`.
* Python floats are modelled as real numbers (`ℝ`); `math.log` is `Real.log`,
  `math.sqrt` is `Real.sqrt`.
* Python dicts mapping tokens to weights are modelled as association lists
  `List (List Char × ℝ)` whose keys are distinct (dict invariant); `dict.get(k, 0)`
  is `(v.lookup k).getD 0`.
* `Counter` iteration over distinct keys is modelled by `List.dedup`; iteration order
  of dicts/sets is immaterial to every property proved here.
* `\w` and `\s` of Python regular expressions are modelled over ASCII as
  alphanumeric-or-underscore and `Char.isWhitespace` respectively.
-/

/-- `text.lower()` on a character list. -/
def pyLower (s : List Char) : List Char := s.map Char.toLower

/-- A regex word character (`\w`): alphanumeric or underscore. -/
def isWordChar (c : Char) : Bool := c.isAlphanum || c == '_'

/-- `str.split()` helper: accumulate the current word (reversed) and split on
whitespace runs, discarding empty words. -/
def splitWSAux : List Char → List Char → List (List Char)
  | [], acc => if acc.isEmpty then [] else [acc.reverse]
  | c :: rest, acc =>
    if c.isWhitespace then
      if acc.isEmpty then splitWSAux rest [] else acc.reverse :: splitWSAux rest []
    else splitWSAux rest (c :: acc)

/-- `str.split()` with no separator: split on whitespace runs, no empty tokens. -/
def splitWS (s : List Char) : List (List Char) := splitWSAux s []

/-- `preprocess(text)` from `vectorizer.py`: lower-case, delete every character that is
neither a word character nor whitespace (`re.sub(r'[^\w\s]', '', text)`), split on
whitespace. -/
def preprocess (text : List Char) : List (List Char) :=
  splitWS ((pyLower text).filter (fun c => isWordChar c || c.isWhitespace))

/-- `" ".join(tokens)`. -/
def joinSpace (ws : List (List Char)) : List Char := List.intercalate [' '] ws

/-- Python `range(0, stop, step)` for `step > 0`: the starts `0, step, 2*step, ...`
below `stop`. -/
def pyRange (stop step : ℕ) : List ℕ := List.range' 0 ((stop + step - 1) / step) step

/-- `chunk_text(text, chunk_size)` from `vectorizer.py`: tokenize once, then join each
slice `tokens[i:i+chunk_size]` for `i in range(0, len(tokens), chunk_size)`. -/
def chunk_text (text : String) (chunk_size : ℕ) : List (List Char) :=
  let tokens := preprocess text.data
  (pyRange tokens.length chunk_size).map (fun i => joinSpace ((tokens.drop i).take chunk_size))

/-- `get_tf(tokens)` from `vectorizer.py`: `Counter(tokens)` with every count divided by
`len(tokens)`.  Keys are the distinct tokens. -/
noncomputable def get_tf (tokens : List (List Char)) : List (List Char × ℝ) :=
  tokens.dedup.map (fun t => (t, (tokens.count t : ℝ) / (tokens.length : ℝ)))

/-- `get_idf(documents)` from `vectorizer.py`: over the set of all tokens of all
documents, `idf[token] = log(num_documents / (1 + num_documents_with_token))`. -/
noncomputable def get_idf (documents : List (List (List Char))) : List (List Char × ℝ) :=
  documents.flatten.dedup.map (fun t =>
    (t, Real.log ((documents.length : ℝ) /
      (1 + (documents.countP (fun doc => decide (t ∈ doc)) : ℝ)))))

/-- `get_tfidf_vector(tokens, idf)` from `vectorizer.py`:
`tfidf_vector[token] = tf.get(token, 0) * idf.get(token, 0)` for each token of the
input (assignment per occurrence; distinct keys survive). -/
noncomputable def get_tfidf_vector (tokens : List (List Char)) (idf : List (List Char × ℝ)) :
    List (List Char × ℝ) :=
  tokens.dedup.map (fun t =>
    (t, (((get_tf tokens).lookup t).getD 0) * ((idf.lookup t).getD 0)))

/-- The key list of a vector (`vec.keys()`). -/
def keys (v : List (List Char × ℝ)) : List (List Char) := v.map Prod.fst

/-- Dictionary access with default 0 (`vec.get(x, 0)`; on present keys, `vec[x]`). -/
def getv (v : List (List Char × ℝ)) (t : List Char) : ℝ := (v.lookup t).getD 0

/-- `sum([vec[x] ** 2 for x in list(vec.keys())])` from `get_cosine_similarity`. -/
noncomputable def sqSum (v : List (List Char × ℝ)) : ℝ :=
  ((keys v).map (fun x => getv v x ^ 2)).sum

/-- `get_cosine_similarity(vec1, vec2)` from `vectorizer.py`.  The numerator ranges over
the intersection of the two key sets (modelled by `dedup` plus a membership filter);
the denominator is the product of the full magnitudes; a zero denominator yields 0.0. -/
noncomputable def get_cosine_similarity (vec1 vec2 : List (List Char × ℝ)) : ℝ :=
  let numerator :=
    (((keys vec1).dedup.filter (fun x => decide (x ∈ keys vec2))).map
      (fun x => getv vec1 x * getv vec2 x)).sum
  let denominator := Real.sqrt (sqSum vec1) * Real.sqrt (sqSum vec2)
  if denominator = 0 then 0 else numerator / denominator

/-- The ranking order used by `get_top_k_rules` on `(similarity, chunk index)` pairs:
Python sorts by the key `(-score, index)`, i.e. descending score with ties broken by
ascending original chunk index. -/
def rank (a b : ℝ × ℕ) : Prop := b.1 < a.1 ∨ (a.1 = b.1 ∧ a.2 ≤ b.2)

noncomputable instance : DecidableRel rank := fun a b => by unfold rank; infer_instance

instance : IsTotal (ℝ × ℕ) rank :=
  ⟨fun a b => by
    rcases lt_trichotomy a.1 b.1 with h | h | h
    · exact Or.inr (Or.inl h)
    · rcases Nat.le_total a.2 b.2 with h2 | h2
      · exact Or.inl (Or.inr ⟨h, h2⟩)
      · exact Or.inr (Or.inr ⟨h.symm, h2⟩)
    · exact Or.inl (Or.inl h)⟩

instance : IsTrans (ℝ × ℕ) rank :=
  ⟨fun a b c hab hbc => by
    rcases hab with h1 | ⟨e1, l1⟩ <;> rcases hbc with h2 | ⟨e2, l2⟩
    · exact Or.inl (h2.trans h1)
    · exact Or.inl (e2 ▸ h1)
    · exact Or.inl (e1 ▸ h2)
    · exact Or.inr ⟨e1.trans e2, l1.trans l2⟩⟩

/-- The `all_chunks` list of `get_top_k_rules`: every rule text is chunked with
`chunk_size=400` and each chunk is paired with `rule_filenames[i]`. -/
def all_chunks (rule_texts rule_filenames : List String) : List (List Char × String) :=
  rule_texts.enum.flatMap (fun p =>
    (chunk_text p.2 400).map (fun c => (c, rule_filenames.getD p.1 "")))

/-- `processed_chunks` of `get_top_k_rules`: each chunk text re-tokenized. -/
def processed_chunks (rule_texts rule_filenames : List String) : List (List (List Char)) :=
  (all_chunks rule_texts rule_filenames).map (fun c => preprocess c.1)

/-- The `similarity_with_index` list of `get_top_k_rules`: cosine similarity of the
query vector against each chunk vector, paired with the chunk index, under the IDF map
built over all chunks plus the query document. -/
noncomputable def similarity_with_index (doc_text : String)
    (rule_texts rule_filenames : List String) : List (ℝ × ℕ) :=
  let pcs := processed_chunks rule_texts rule_filenames
  let processed_doc := preprocess doc_text.data
  let idf := get_idf (pcs ++ [processed_doc])
  let doc_vec := get_tfidf_vector processed_doc idf
  pcs.enum.map (fun p => (get_cosine_similarity doc_vec (get_tfidf_vector p.2 idf), p.1))

/-- `get_top_k_rules(doc_text, rule_texts, rule_filenames, k)` from `vectorizer.py`.
The selection `heapq.nlargest(k, pairs, key=score)` followed by
`top.sort(key=(-score, index))` is modelled as sorting all pairs by the total order
`rank` (descending score, ties by ascending index) and taking the first `k`:
`nlargest` is documented as equivalent to stable descending sort followed by `[:k]`,
and stability makes ties come out in ascending index order, so both computations
produce the first `k` elements of the `rank`-sorted list. -/
noncomputable def get_top_k_rules (doc_text : String)
    (rule_texts rule_filenames : List String) (k : ℕ) : List (List Char) :=
  if rule_texts = [] then []
  else
    ((List.insertionSort rank (similarity_with_index doc_text rule_texts rule_filenames)).take
        k).map
      (fun p => ((all_chunks rule_texts rule_filenames).getD p.2 ([], "")).1)

/-- Specification-side chunking: consecutive non-overlapping windows of `cs` elements,
the last one possibly shorter.  Stated independently of the indexing scheme of
`chunk_text` so that agreement between the two is a real theorem. -/
def chunksOf : ℕ → List α → List (List α)
  | _, [] => []
  | 0, _ :: _ => []
  | cs + 1, a :: t => ((a :: t).take (cs + 1)) :: chunksOf (cs + 1) ((a :: t).drop (cs + 1))
termination_by cs l => l.length
decreasing_by
  simp only [List.length_drop, List.length_cons]
  omega

/-! ### Heuristic document-type scorer (`_heuristic_detect_document_type`)

Every indicator pattern in the source is of the form
`\b w1 \s* w2 \s* ... \s* wn \b` with literal lower-case words `wi` (the character
class `[h]` in one DHL pattern denotes the literal `h`).  A pattern is represented as
its word list, and matching is implemented directly: at a match position the previous
character must not be a word character, the words must occur consecutively separated
by (possibly empty) whitespace runs, and the following character must not be a word
character.  Greedy whitespace skipping is exact here because no word starts with a
whitespace character. -/

/-- Match the remaining words of a pattern: before each word, skip the whitespace run
(`\s*`), then the word itself must be a prefix.  Returns the rest of the text. -/
def matchTail : List (List Char) → List Char → Option (List Char)
  | [], s => some s
  | w :: ws, s =>
    let t := s.dropWhile Char.isWhitespace
    if w.isPrefixOf t then matchTail ws (t.drop w.length) else none

/-- Match a whole pattern at the current position (first word with no leading skip). -/
def matchAll (ws : List (List Char)) (s : List Char) : Option (List Char) :=
  match ws with
  | [] => some s
  | w :: rest => if w.isPrefixOf s then matchTail rest (s.drop w.length) else none

/-- The closing `\b`: the next character, if any, is not a word character. -/
def endBoundary : List Char → Bool
  | [] => true
  | c :: _ => !isWordChar c

/-- The opening `\b`: the previous character, if any, is not a word character. -/
def prevBoundary : Option Char → Bool
  | none => true
  | some c => !isWordChar c

/-- Does the pattern match exactly at this position (both boundaries included)? -/
def checkHere (ws : List (List Char)) (s : List Char) : Bool :=
  match matchAll ws s with
  | some r => endBoundary r
  | none => false

/-- `re.search` for a `\b`-delimited word-sequence pattern: try every position. -/
def reSearchAux (ws : List (List Char)) : Option Char → List Char → Bool
  | prev, [] => prevBoundary prev && checkHere ws []
  | prev, c :: rest =>
    (prevBoundary prev && checkHere ws (c :: rest)) || reSearchAux ws (some c) rest

/-- `re.search(pattern, s) is not None` for a pattern given by its word list. -/
def reSearch (p : List String) (s : List Char) : Bool :=
  reSearchAux (p.map String.data) none s

/-- One point per indicator pattern that fires (`if re.search(...): score += 1`). -/
def scorePats (pats : List (List String)) (s : List Char) : ℕ :=
  pats.countP (fun p => reSearch p s)

/-- Python substring test `needle in hay`. -/
def hasSub (needle : List Char) : List Char → Bool
  | [] => needle.isEmpty
  | c :: rest => needle.isPrefixOf (c :: rest) || hasSub needle rest

/-- `phrase in text` for a string literal phrase. -/
def subIn (phrase : String) (s : List Char) : Bool := hasSub phrase.data s

/-- `line.strip()`: drop leading and trailing whitespace. -/
def pyStrip (l : List Char) : List Char :=
  ((l.dropWhile Char.isWhitespace).reverse.dropWhile Char.isWhitespace).reverse

/-- `[line.strip().lower() for line in ls if line.strip()]`. -/
def procLines (ls : List (List Char)) : List (List Char) :=
  ls.filterMap (fun l =>
    let t := pyStrip l
    if t.isEmpty then none else some (t.map Char.toLower))

/-- `phrase in str(first_lines)`: the Python source tests membership in the repr of the
processed first-lines list.  For the phrases used by the source (plain words and
spaces, no quote or bracket characters), a phrase is a substring of the repr iff it is
a substring of one of the lines, since the repr separates lines with `', '` whose
quote character cannot occur inside a phrase. -/
def strFirstContains (fls : List (List Char)) (phrase : List Char) : Bool :=
  fls.any (fun l => hasSub phrase l)

/-- `dhl_indicators` of the source (20 patterns; the two `d h l` variants coincide). -/
def dhl_indicators : List (List String) :=
  [["dhl"], ["d", "h", "l"], ["d", "h", "l"], ["waybill"], ["way", "bill"],
   ["tracking", "number"], ["track", "no"], ["airway", "bill"], ["air", "way", "bill"],
   ["express", "service"], ["delivery", "receipt"], ["delivery", "note"],
   ["parcel", "receipt"], ["parcel", "note"], ["shipping", "label"], ["ship", "label"],
   ["consignment", "note"], ["consign", "note"], ["dispatch", "note"],
   ["dispatch", "advice"]]

/-- `invoice_indicators` of the source (39 patterns). -/
def invoice_indicators : List (List String) :=
  [["commercial", "invoice"], ["invoice", "no"], ["invoice", "date"],
   ["total", "invoice", "value"], ["total", "value"], ["invoice", "value"],
   ["cfr"], ["cif"], ["fob"], ["ex", "works"], ["currency"], ["unit", "price"],
   ["price", "per", "unit"], ["rate"], ["quantity"], ["qty"], ["amount"],
   ["net", "weight"], ["gross", "weight"], ["packaging"], ["payment", "terms"],
   ["payment", "conditions"], ["terms", "of", "payment"], ["buyer"], ["seller"],
   ["vendor"], ["supplier"], ["purchaser"], ["customer"], ["goods", "description"],
   ["description", "of", "goods"], ["product", "description"], ["incoterms"],
   ["export", "references"], ["job", "no"], ["contract", "no"], ["order", "no"],
   ["purchase", "order"], ["po", "no"]]

/-- `bol_indicators` of the source (45 patterns). -/
def bol_indicators : List (List String) :=
  [["bill", "of", "lading"], ["ocean", "freight"], ["shipper", "exporter"],
   ["shipper"], ["exporter"], ["consignee"], ["notify", "party"], ["notify"],
   ["port", "of", "loading"], ["port", "of", "discharge"], ["port", "of", "unloading"],
   ["vessel"], ["ship"], ["carrier"], ["container", "no"], ["container", "number"],
   ["seal", "no"], ["seal", "number"], ["shipped", "on", "board"],
   ["on", "board", "date"], ["non", "negotiable"], ["ocean", "track"], ["nvocc"],
   ["forwarding", "agent"], ["freight", "forwarder"], ["transport", "company"],
   ["shipping", "line"], ["ocean", "carrier"], ["voyage", "no"], ["voyage", "number"],
   ["route"], ["shipping", "route"], ["transit", "time"], ["delivery", "terms"],
   ["shipping", "terms"], ["freight", "terms"], ["freight", "prepaid"],
   ["freight", "collect"], ["charter", "party"], ["charter", "party", "bill"],
   ["house", "bill"], ["master", "bill"], ["straight", "bill"], ["order", "bill"],
   ["negotiable", "bill"]]

/-- `packing_indicators` of the source (13 patterns). -/
def packing_indicators : List (List String) :=
  [["packing", "list"], ["package", "list"], ["packages"], ["package", "numbers"],
   ["package", "nos"], ["packaging", "details"], ["contents", "list"],
   ["item", "list"], ["goods", "list"], ["packing", "instructions"],
   ["packing", "details"], ["package", "contents"], ["package", "description"]]

/-- `shipment_indicators` of the source (11 patterns). -/
def shipment_indicators : List (List String) :=
  [["shipment", "advice"], ["shipping", "advice"], ["shipment", "notification"],
   ["shipping", "notification"], ["advice", "of", "shipment"], ["shipment", "details"],
   ["shipping", "details"], ["shipment", "information"], ["shipping", "information"],
   ["shipment", "status"], ["shipping", "status"]]

/-- `covering_indicators` of the source (10 patterns). -/
def covering_indicators : List (List String) :=
  [["covering", "schedule"], ["schedule", "of", "documents"], ["document", "schedule"],
   ["attachments", "list"], ["supporting", "documents"], ["document", "list"],
   ["attachments"], ["supporting", "docs"], ["document", "attachments"],
   ["schedule", "of", "attachments"]]

/-- The six category scores plus the header-boost counter of the heuristic scorer. -/
structure HScores where
  dhl : ℕ
  invoice : ℕ
  bol : ℕ
  packing : ℕ
  shipment : ℕ
  covering : ℕ
  headerBoost : ℕ

/-- One step of the header loop over the first 15 non-blank lines: an `elif` chain
adding a +5 boost to the matching category and counting the header boost. -/
def headerStep (st : HScores) (line : List Char) : HScores :=
  if subIn "packing list" line then
    { st with packing := st.packing + 5, headerBoost := st.headerBoost + 1 }
  else if subIn "shipment advice" line then
    { st with shipment := st.shipment + 5, headerBoost := st.headerBoost + 1 }
  else if subIn "covering schedule" line then
    { st with covering := st.covering + 5, headerBoost := st.headerBoost + 1 }
  else if subIn "commercial invoice" line then
    { st with invoice := st.invoice + 5, headerBoost := st.headerBoost + 1 }
  else if subIn "bill of lading" line then
    { st with bol := st.bol + 5, headerBoost := st.headerBoost + 1 }
  else if subIn "dhl" line || subIn "waybill" line then
    { st with dhl := st.dhl + 5, headerBoost := st.headerBoost + 1 }
  else st

/-- One step of the whole-document loop: a +5 boost per line whose phrase does not
already occur among the first lines (no header-boost count here). -/
def bodyStep (fls : List (List Char)) (st : HScores) (line : List Char) : HScores :=
  if subIn "shipment advice" line && !strFirstContains fls "shipment advice".data then
    { st with shipment := st.shipment + 5 }
  else if subIn "covering schedule" line &&
      !strFirstContains fls "covering schedule".data then
    { st with covering := st.covering + 5 }
  else if subIn "packing list" line && !strFirstContains fls "packing list".data then
    { st with packing := st.packing + 5 }
  else if subIn "commercial invoice" line &&
      !strFirstContains fls "commercial invoice".data then
    { st with invoice := st.invoice + 5 }
  else if subIn "bill of lading" line && !strFirstContains fls "bill of lading".data then
    { st with bol := st.bol + 5 }
  else if (subIn "dhl" line || subIn "waybill" line) &&
      !strFirstContains fls "dhl".data && !strFirstContains fls "waybill".data then
    { st with dhl := st.dhl + 5 }
  else st

/-- The full scoring pipeline of `_heuristic_detect_document_type` up to (but not
including) the final decision: regex indicator scores, the bill-of-lading list-context
reduction, header and whole-document line boosts, covering-schedule meta-document
boosts, the mixed-indicator penalty, and the covering-schedule-versus-BOL penalties.
`max(0, x - k)` on scores is natural-number truncated subtraction. -/
def heuristicState (document_content : String) : HScores :=
  let cl := pyLower document_content.data
  let dhl0 := scorePats dhl_indicators cl
  let invoice0 := scorePats invoice_indicators cl
  let bol0 := scorePats bol_indicators cl
  let bol1 :=
    if (subIn "bill of lading" cl || subIn "konnossement" cl) &&
        (subIn "1st mail" cl || subIn "2nd mail" cl || subIn "mail of documents" cl ||
          subIn "please find enclosed" cl || subIn "documents for" cl) then
      bol0 - 3
    else bol0
  let packing0 := scorePats packing_indicators cl
  let shipment0 := scorePats shipment_indicators cl
  let covering0 := scorePats covering_indicators cl
  let lines := document_content.data.splitOn '\n'
  let first_lines := procLines (lines.take 15)
  let all_lines := procLines lines
  let st0 : HScores := ⟨dhl0, invoice0, bol1, packing0, shipment0, covering0, 0⟩
  let st1 := first_lines.foldl headerStep st0
  let st2 := all_lines.foldl (bodyStep first_lines) st1
  let cov2 :=
    if subIn "covering schedule" cl || subIn "schedule of documents" cl then
      st2.covering + 10
    else st2.covering
  let cif1 : ℕ :=
    if subIn "please find enclosed the following documents" cl ||
        subIn "enclosed the following documents" cl || subIn "documents for" cl ||
        subIn "1st mail" cl || subIn "2nd mail" cl || subIn "draft" cl ||
        subIn "konnossement" cl || subIn "mail of documents" cl ||
        subIn "documentary credit" cl || subIn "our reference date" cl ||
        subIn "your reference" cl then 1
    else 0
  let cov3 := if subIn "mail of documents" cl then cov2 + 8 else cov2
  let cif2 := if subIn "mail of documents" cl then cif1 + 1 else cif1
  let cif3 :=
    if subIn "covering schedule" cl || subIn "schedule of documents" cl ||
        subIn "document schedule" cl || subIn "attachments list" cl ||
        subIn "supporting documents" cl || subIn "document list" cl ||
        subIn "attachments" cl || subIn "supporting docs" cl ||
        subIn "document attachments" cl || subIn "schedule of attachments" cl then
      cif2 + 1
    else cif2
  let dtr1 : ℕ := if subIn "commercial invoice" cl then 1 else 0
  let dtr2 := if subIn "packing list" cl then dtr1 + 1 else dtr1
  let dtr3 :=
    if subIn "shipping advice" cl || subIn "shipment advice" cl then dtr2 + 1 else dtr2
  let dtr4 :=
    if subIn "bill of lading" cl || subIn "konnossement" cl then dtr3 + 1 else dtr3
  let dtr5 := if subIn "draft" cl then dtr4 + 1 else dtr4
  let cif4 := if 3 ≤ dtr5 then cif3 + 3 else if 2 ≤ dtr5 then cif3 + 2 else cif3
  let cov4 :=
    if 3 ≤ cif4 then cov3 + 15
    else if 2 ≤ cif4 then cov3 + 10
    else if cif4 = 1 then cov3 + 5
    else cov3
  let pack2 :=
    if subIn "packaging:" cl || subIn "package nos" cl then st2.packing + 3
    else st2.packing
  let ship2 :=
    if subIn "shipment advice" cl || subIn "shipping advice" cl then st2.shipment + 3
    else st2.shipment
  let ship3 :=
    if subIn "shipment details" cl || subIn "shipping details" cl ||
        subIn "vessel name" cl || subIn "shipped on board date" cl ||
        subIn "expected arrival date" cl then ship2 + 2
    else ship2
  let total := st2.dhl + st2.invoice + st2.bol + pack2 + ship3 + cov4
  let ib :=
    if 20 < total then
      let ib1 :=
        if 0 < st2.invoice && 0 < st2.bol then
          if st2.invoice < st2.bol then (st2.invoice - 3, st2.bol)
          else (st2.invoice, st2.bol - 3)
        else (st2.invoice, st2.bol)
      let i2 :=
        if 0 < ib1.1 && (0 < pack2 || 0 < ship3 || 0 < cov4) then
          if subIn "packing list" cl || subIn "shipment advice" cl ||
              subIn "covering schedule" cl then ib1.1 - 2
          else ib1.1
        else ib1.1
      (i2, ib1.2)
    else (st2.invoice, st2.bol)
  let inv5 := ib.1
  let bol5 := ib.2
  let bol6 :=
    if 2 ≤ cif4 && 0 < bol5 then
      if subIn "mail of documents" cl || subIn "please find enclosed" cl then bol5 - 15
      else if 3 ≤ cif4 then bol5 - 12
      else bol5 - 8
    else bol5
  let bol7 := if 3 ≤ cif4 && subIn "mail of documents" cl then bol6 - 20 else bol6
  if 0 < cov4 && 2 ≤ cif4 && (0 < inv5 || 0 < bol7 || 0 < pack2 || 0 < ship3) then
    let cov5 := cov4 + 8
    if 3 ≤ cif4 then
      ⟨if 0 < st2.dhl then st2.dhl - 5 else st2.dhl,
       if 0 < inv5 then inv5 - 5 else inv5,
       if 0 < bol7 then bol7 - 8 else bol7,
       if 0 < pack2 then pack2 - 5 else pack2,
       if 0 < ship3 then ship3 - 5 else ship3,
       cov5, st2.headerBoost⟩
    else if 2 ≤ cif4 then
      ⟨st2.dhl,
       if 0 < inv5 then inv5 - 2 else inv5,
       if 0 < bol7 then bol7 - 4 else bol7,
       pack2, ship3, cov5, st2.headerBoost⟩
    else
      ⟨st2.dhl, inv5, bol7, pack2, ship3, cov5, st2.headerBoost⟩
  else
    ⟨st2.dhl, inv5, bol7, pack2, ship3, cov4, st2.headerBoost⟩

/-- The six labelled scores in the order the source builds its `scores` dict. -/
def catScores (st : HScores) : List (String × ℕ) :=
  [("DHL RECEIPT", st.dhl), ("COMMERCIAL INVOICE", st.invoice),
   ("BILL OF LADING", st.bol), ("PACKING LIST", st.packing),
   ("SHIPMENT ADVICE", st.shipment), ("COVERING SCHEDULE", st.covering)]

/-- The decision step of `_heuristic_detect_document_type`: the maximum score, the
list of categories attaining it, and the tiered confidence thresholds (≥5, ≥3, or ≥2
with a recorded header boost), each demanding a unique maximum. -/
def decision (st : HScores) : Option String :=
  let scores := catScores st
  let max_score := (scores.map Prod.snd).foldr Nat.max 0
  let max_score_types := (scores.filter (fun p => p.2 == max_score)).map Prod.fst
  if 5 ≤ max_score ∧ max_score_types.length = 1 then some max_score_types.headI
  else if 3 ≤ max_score ∧ max_score_types.length = 1 then some max_score_types.headI
  else if 2 ≤ max_score ∧ max_score_types.length = 1 ∧ 0 < st.headerBoost then
    some max_score_types.headI
  else none

/-- `_heuristic_detect_document_type(document_content)`: scoring followed by the
thresholded decision; `none` models the Python `None` fallback. -/
def heuristic_detect_document_type (document_content : String) : Option String :=
  decision (heuristicState document_content)

/-- A covering-schedule scenario document: it names four document types purely as
enclosed items after the phrase "please find enclosed the following documents". -/
def scenarioDoc : String :=
  "please find enclosed the following documents currency quantity\ncommercial invoice\npacking list\nshipment advice\nbill of lading"

/-! ### Helper lemmas -/

theorem lookup_map_self {α : Type*} {β : Type*} [BEq α] [LawfulBEq α]
    (l : List α) (f : α → β) (t : α) (h : t ∈ l) :
    (l.map (fun x => (x, f x))).lookup t = some (f t) := by
  induction l with
  | nil => simp at h
  | cons a l ih =>
    by_cases hta : t = a
    · subst hta
      simp [List.lookup]
    · have h2 : t ∈ l := by
        rcases List.mem_cons.mp h with rfl | h2
        · exact absurd rfl hta
        · exact h2
      have hbeq : (t == a) = false := beq_eq_false_iff_ne.mpr hta
      simp only [List.map_cons, List.lookup, hbeq]
      exact ih h2

theorem count_instances_eq (l : List (List Char)) (x : List Char) :
    l.count x = @List.count (List Char) instBEqOfDecidableEq x l := by
  have e1 : l.count x = List.countP (fun y => @BEq.beq _ List.instBEq y x) l := rfl
  have e2 : @List.count (List Char) instBEqOfDecidableEq x l =
      List.countP (fun y => @BEq.beq _ instBEqOfDecidableEq y x) l := rfl
  rw [e1, e2]
  apply List.countP_congr
  intro y _
  rcases eq_or_ne y x with rfl | h
  · simp
  · have b1 : (@BEq.beq _ List.instBEq y x) = false := beq_eq_false_iff_ne.mpr h
    have b2 : (@BEq.beq _ instBEqOfDecidableEq y x) = false := by
      show decide (y = x) = false
      simp [h]
    rw [b1, b2]

theorem sum_dedup_count_eq_length (l : List (List Char)) :
    (l.dedup.map fun t => l.count t).sum = l.length := by
  have h := List.sum_map_count_dedup_eq_length l
  rw [← h]
  congr 1
  exact List.map_congr_left fun x _ => count_instances_eq l x

/-! ### Claims C2, C5, C6, C7, C8, C10 about the TF-IDF engine -/

/-- Claim C2: `get_idf` assigns to every token occurring in at least one of the
supplied token lists the weight `ln(N / (1 + df))`, where `N` is the number of token
lists and `df` the number of lists containing the token; when the token is present in
all `N` lists the weight `ln(N / (N + 1))` is strictly negative. -/
theorem get_idf_formula (documents : List (List (List Char))) (t : List Char)
    (h : t ∈ documents.flatten) :
    (get_idf documents).lookup t =
      some (Real.log ((documents.length : ℝ) /
        (1 + (documents.countP (fun doc => decide (t ∈ doc)) : ℝ)))) ∧
    (documents.countP (fun doc => decide (t ∈ doc)) = documents.length →
      Real.log ((documents.length : ℝ) /
        (1 + (documents.countP (fun doc => decide (t ∈ doc)) : ℝ))) < 0) := by
  constructor
  · exact lookup_map_self _ _ _ (List.mem_dedup.mpr h)
  · intro hdf
    rw [hdf]
    have hN : 0 < documents.length := by
      rcases documents with _ | ⟨d0, rest⟩
      · simp at h
      · simp
    apply Real.log_neg
    · apply div_pos
      · exact_mod_cast hN
      · positivity
    · rw [div_lt_one (by positivity)]
      linarith [show (0 : ℝ) < 1 by norm_num]

/-- Witness for C2: with two one-token documents both equal to `["a"]`, the token is
present in both lists (`df = N = 2`) and receives weight `ln(2/3) < 0`. -/
theorem get_idf_formula_witness :
    (['a'] ∈ ([[['a']], [['a']]] : List (List (List Char))).flatten) ∧
    (([[['a']], [['a']]] : List (List (List Char))).countP
        (fun doc => decide (['a'] ∈ doc)) = ([[['a']], [['a']]] : List (List (List Char))).length) ∧
    (get_idf [[['a']], [['a']]]).lookup ['a'] =
      some (Real.log ((2 : ℝ) / (1 + 2))) ∧
    Real.log ((2 : ℝ) / (1 + 2)) < 0 := by
  have h1 : ['a'] ∈ ([[['a']], [['a']]] : List (List (List Char))).flatten := by decide
  have h2 : ([[['a']], [['a']]] : List (List (List Char))).countP
      (fun doc => decide (['a'] ∈ doc)) = ([[['a']], [['a']]] : List (List (List Char))).length := by
    decide
  obtain ⟨ha, hb⟩ := get_idf_formula [[['a']], [['a']]] ['a'] h1
  refine ⟨h1, h2, ?_, ?_⟩
  · rw [ha]
    norm_num
  · have := hb h2
    norm_num at this ⊢
    exact this

/-- Claim C5: for a non-empty token list, `get_tf` maps each token to its count
divided by the total length, and the values of the map sum exactly to 1 (the
floating-point computation is modelled exactly over ℝ). -/
theorem get_tf_frequencies (tokens : List (List Char)) (h : tokens ≠ []) :
    (∀ t ∈ tokens, (get_tf tokens).lookup t =
        some ((tokens.count t : ℝ) / (tokens.length : ℝ))) ∧
    ((get_tf tokens).map Prod.snd).sum = 1 := by
  constructor
  · intro t ht
    exact lookup_map_self _ _ _ (List.mem_dedup.mpr ht)
  · unfold get_tf
    rw [List.map_map]
    have hcomp : (Prod.snd ∘ fun t => (t, (tokens.count t : ℝ) / (tokens.length : ℝ))) =
        fun t => (tokens.count t : ℝ) / (tokens.length : ℝ) := rfl
    rw [hcomp]
    have hlen : (tokens.length : ℝ) ≠ 0 := by
      have := List.length_pos.mpr h
      exact_mod_cast this.ne'
    simp only [div_eq_mul_inv]
    rw [List.sum_map_mul_right]
    have hcast : (tokens.dedup.map fun t => ((tokens.count t : ℕ) : ℝ)).sum =
        (((tokens.dedup.map fun t => tokens.count t).sum : ℕ) : ℝ) := by
      rw [Nat.cast_list_sum, List.map_map]
      rfl
    rw [hcast, sum_dedup_count_eq_length]
    exact mul_inv_cancel₀ hlen

/-- Witness for C5 at the concrete token list `["a", "b", "a"]`. -/
theorem get_tf_frequencies_witness :
    (([['a'], ['b'], ['a']] : List (List Char)) ≠ []) ∧
    (get_tf [['a'], ['b'], ['a']]).lookup ['a'] =
      some ((([['a'], ['b'], ['a']] : List (List Char)).count ['a'] : ℝ) /
        (([['a'], ['b'], ['a']] : List (List Char)).length : ℝ)) ∧
    ((get_tf [['a'], ['b'], ['a']]).map Prod.snd).sum = 1 := by
  have h : ([['a'], ['b'], ['a']] : List (List Char)) ≠ [] := by decide
  obtain ⟨ha, hb⟩ := get_tf_frequencies [['a'], ['b'], ['a']] h
  exact ⟨h, ha ['a'] (by decide), hb⟩

/-- Claim C10: `get_tf` on the empty token list returns the empty map; in the model
(as in the source, whose division loop ranges over an empty `Counter`) no division is
ever attempted, so no error can be raised. -/
theorem get_tf_empty : get_tf [] = [] := by
  simp [get_tf]

/-- Claim C6: whenever one of the two vectors has zero magnitude, the cosine
similarity is exactly 0 (the division is never taken, so no error can occur). -/
theorem cosine_zero_magnitude (v1 v2 : List (List Char × ℝ))
    (h : sqSum v1 = 0 ∨ sqSum v2 = 0) :
    get_cosine_similarity v1 v2 = 0 := by
  unfold get_cosine_similarity
  rcases h with h | h <;> simp [h]

/-- Witness for C6: the empty vector (of an empty-token document) has zero magnitude
and its similarity against a nonzero vector is 0. -/
theorem cosine_zero_magnitude_witness :
    (sqSum ([] : List (List Char × ℝ)) = 0 ∨ sqSum [(['a'], (1 : ℝ))] = 0) ∧
    get_cosine_similarity ([] : List (List Char × ℝ)) [(['a'], (1 : ℝ))] = 0 :=
  ⟨Or.inl (by simp [sqSum, keys]),
   cosine_zero_magnitude _ _ (Or.inl (by simp [sqSum, keys]))⟩

/-- Counterexample to claim C7 as stated: for the zero-magnitude vector (e.g. the
empty vector), the self-similarity is 0, not 1. -/
theorem cosine_self_zero_vector_ne_one :
    get_cosine_similarity ([] : List (List Char × ℝ)) ([] : List (List Char × ℝ)) ≠ 1 := by
  have h : get_cosine_similarity ([] : List (List Char × ℝ)) [] = 0 := by
    unfold get_cosine_similarity
    simp only []
    rw [show sqSum ([] : List (List Char × ℝ)) = 0 by simp [sqSum, keys]]
    rw [Real.sqrt_zero, zero_mul, if_pos rfl]
  rw [h]
  norm_num

/-- Claim C7 (amended): for every vector with distinct keys (the dict invariant) and
nonzero magnitude, the cosine similarity with itself is exactly 1. -/
theorem cosine_self_one (v : List (List Char × ℝ)) (h1 : (keys v).Nodup)
    (h2 : sqSum v ≠ 0) : get_cosine_similarity v v = 1 := by
  unfold get_cosine_similarity
  simp only []
  have hnn : 0 ≤ sqSum v := by
    unfold sqSum
    apply List.sum_nonneg
    intro x hx
    simp only [List.mem_map] at hx
    obtain ⟨y, -, rfl⟩ := hx
    positivity
  have hnum : (((keys v).dedup.filter (fun x => decide (x ∈ keys v))).map
      (fun x => getv v x * getv v x)).sum = sqSum v := by
    rw [h1.dedup, List.filter_eq_self.mpr (by intro x hx; simpa using hx)]
    unfold sqSum
    congr 1
    exact List.map_congr_left fun x _ => by ring
  rw [Real.mul_self_sqrt hnn, if_neg h2, hnum, div_self h2]

/-- Witness for the amended C7 at the one-key vector `{a: 1}`. -/
theorem cosine_self_one_witness :
    (keys [(['a'], (1 : ℝ))]).Nodup ∧ sqSum [(['a'], (1 : ℝ))] ≠ 0 ∧
    get_cosine_similarity [(['a'], (1 : ℝ))] [(['a'], (1 : ℝ))] = 1 := by
  have h1 : (keys [(['a'], (1 : ℝ))]).Nodup := by simp [keys]
  have h2 : sqSum [(['a'], (1 : ℝ))] ≠ 0 := by
    simp [sqSum, keys, getv, List.lookup]
  exact ⟨h1, h2, cosine_self_one _ h1 h2⟩

/-- Claim C8: with an empty rules corpus, `get_top_k_rules` returns the empty list
(for every document text, filename list, and k), raising nothing. -/
theorem get_top_k_rules_empty_rules (doc_text : String) (rule_filenames : List String)
    (k : ℕ) : get_top_k_rules doc_text [] rule_filenames k = [] := by
  simp [get_top_k_rules]

theorem filter_max_singleton (c : String) (m : ℕ) (L : List (String × ℕ)) :
    (L.map Prod.fst).Nodup → (∀ p ∈ L, p.2 ≤ m) →
      (L.filter (fun p => p.2 == m) = [(c, m)] ↔
        ((c, m) ∈ L ∧ ∀ p ∈ L, p.1 ≠ c → p.2 < m)) := by
  induction L with
  | nil => simp
  | cons p L ih =>
    intro hnd hle
    rw [List.map_cons] at hnd
    have hnd2 := List.nodup_cons.mp hnd
    have hndL : (L.map Prod.fst).Nodup := hnd2.2
    have hp1 : p.1 ∉ L.map Prod.fst := hnd2.1
    have hleL : ∀ q ∈ L, q.2 ≤ m := fun q hq => hle q (List.mem_cons_of_mem _ hq)
    by_cases hpm : p.2 = m
    · have hf : (p :: L).filter (fun q => q.2 == m) = p :: L.filter (fun q => q.2 == m) := by
        simp [List.filter_cons, hpm]
      rw [hf]
      by_cases hpc : p = (c, m)
      · subst hpc
        simp only [List.cons.injEq, true_and]
        constructor
        · intro hrest
          have hempty : ∀ q ∈ L, q.2 < m := by
            intro q hq
            rcases Nat.lt_or_ge q.2 m with h | h
            · exact h
            · have hqm : q.2 = m := le_antisymm (hleL q hq) h
              have : q ∈ L.filter (fun q => q.2 == m) := by
                simp [List.mem_filter, hq, hqm]
              rw [hrest] at this
              simp at this
          exact ⟨List.mem_cons_self _ _, by
            intro q hq hqc
            rcases List.mem_cons.mp hq with rfl | hq2
            · simp at hqc
            · exact hempty q hq2⟩
        · rintro ⟨-, hlt⟩
          rw [List.filter_eq_nil_iff]
          intro q hq
          have hq1 : q.1 ≠ c := by
            intro hcc
            exact hp1 (by simpa [hcc] using List.mem_map_of_mem Prod.fst hq)
          have := hlt q (List.mem_cons_of_mem _ hq) hq1
          simp only [beq_iff_eq]
          omega
      · constructor
        · intro h
          exfalso
          have := (List.cons.injEq _ _ _ _).mp h
          exact hpc this.1
        · rintro ⟨hmem, hlt⟩
          exfalso
          rcases List.mem_cons.mp hmem with h | h
          · exact hpc h.symm
          · have hp1c : p.1 ≠ c := by
              rintro hcc
              apply hp1
              rw [hcc]
              exact List.mem_map_of_mem Prod.fst h
            have := hlt p (List.mem_cons_self _ _) hp1c
            omega
    · have hf : (p :: L).filter (fun q => q.2 == m) = L.filter (fun q => q.2 == m) := by
        simp [List.filter_cons, hpm]
      rw [hf, ih hndL hleL]
      constructor
      · rintro ⟨hmem, hlt⟩
        refine ⟨List.mem_cons_of_mem _ hmem, ?_⟩
        intro q hq hqc
        rcases List.mem_cons.mp hq with rfl | hq2
        · have := hle q (List.mem_cons_self _ _)
          omega
        · exact hlt q hq2 hqc
      · rintro ⟨hmem, hlt⟩
        rcases List.mem_cons.mp hmem with h | h
        · exfalso
          rw [← h] at hpm
          simp at hpm
        · exact ⟨h, fun q hq hqc => hlt q (List.mem_cons_of_mem _ hq) hqc⟩

theorem decision_iff (st : HScores) (c : String) :
    decision st = some c ↔
      ∃ s : ℕ, (c, s) ∈ catScores st ∧ (∀ p ∈ catScores st, p.2 ≤ s) ∧
        (∀ p ∈ catScores st, p.1 ≠ c → p.2 < s) ∧
        (3 ≤ s ∨ (2 ≤ s ∧ 0 < st.headerBoost)) := by
  obtain ⟨a, b, g, d, e, f, hb⟩ := st
  have hmval : ((catScores ⟨a, b, g, d, e, f, hb⟩).map Prod.snd).foldr Nat.max 0 =
      max a (max b (max g (max d (max e (max f 0))))) := by
    simp [catScores]
  generalize hM : ((catScores ⟨a, b, g, d, e, f, hb⟩).map Prod.snd).foldr Nat.max 0 = M at hmval
  have hle : ∀ p ∈ catScores ⟨a, b, g, d, e, f, hb⟩, p.2 ≤ M := by
    intro p hp
    simp only [catScores, List.mem_cons, List.not_mem_nil, or_false] at hp
    rcases hp with rfl | rfl | rfl | rfl | rfl | rfl <;> simp only [hmval] <;> omega
  have hnodup : ((catScores ⟨a, b, g, d, e, f, hb⟩).map Prod.fst).Nodup := by
    simp only [catScores, List.map_cons, List.map_nil]
    decide
  have key : (decision ⟨a, b, g, d, e, f, hb⟩ = some c) ↔
      (((catScores ⟨a, b, g, d, e, f, hb⟩).filter (fun p => p.2 == M)).map Prod.fst = [c] ∧
        (3 ≤ M ∨ (2 ≤ M ∧ 0 < hb))) := by
    unfold decision
    simp only []
    rw [hM]
    split_ifs with h1 h2 h3
    · obtain ⟨x, hx⟩ := List.length_eq_one.mp h1.2
      rw [hx]
      have h3M : 3 ≤ M := by omega
      simp [h3M]
    · obtain ⟨x, hx⟩ := List.length_eq_one.mp h2.2
      rw [hx]
      have h3M : 3 ≤ M := h2.1
      simp [h3M]
    · obtain ⟨x, hx⟩ := List.length_eq_one.mp h3.2.1
      rw [hx]
      have hfl : 3 ≤ M ∨ (2 ≤ M ∧ 0 < hb) := Or.inr ⟨h3.1, h3.2.2⟩
      simp [hfl]
    · simp only [false_iff, iff_false]
      rintro ⟨hmap, hfl⟩
      have hlen :
          ((List.filter (fun p => p.2 == M)
            (catScores ⟨a, b, g, d, e, f, hb⟩)).map Prod.fst).length = 1 := by
        rw [hmap]
        rfl
      rcases hfl with h | ⟨hA, hB⟩
      · exact h2 ⟨h, hlen⟩
      · exact h3 ⟨hA, hlen, hB⟩
  have hbridge :
      ((catScores ⟨a, b, g, d, e, f, hb⟩).filter (fun p => p.2 == M)).map Prod.fst = [c] ↔
        (catScores ⟨a, b, g, d, e, f, hb⟩).filter (fun p => p.2 == M) = [(c, M)] := by
    constructor
    · intro hmap
      have hlen : ((catScores ⟨a, b, g, d, e, f, hb⟩).filter
          (fun p => p.2 == M)).length = 1 := by
        rw [← List.length_map _ Prod.fst, hmap]
        rfl
      obtain ⟨x, hx⟩ := List.length_eq_one.mp hlen
      have hx1 : x.1 = c := by
        rw [hx] at hmap
        simpa using hmap
      have hx2 : x.2 = M := by
        have hxmem : x ∈ (catScores ⟨a, b, g, d, e, f, hb⟩).filter (fun p => p.2 == M) := by
          rw [hx]
          exact List.mem_cons_self _ _
        have := (List.mem_filter.mp hxmem).2
        simpa using this
      rw [hx]
      rw [show x = (c, M) from Prod.ext hx1 hx2]
    · intro hfe
      rw [hfe]
      rfl
  rw [key, hbridge, filter_max_singleton c M _ hnodup hle]
  constructor
  · rintro ⟨⟨hmem, hlt⟩, hfl⟩
    exact ⟨M, hmem, hle, hlt, hfl⟩
  · rintro ⟨s, hmem, hub, hlt, hfl⟩
    have hsle : s ≤ M := hle (c, s) hmem
    have ha2 : a ≤ s := hub ("DHL RECEIPT", a) (by simp [catScores])
    have hb2 : b ≤ s := hub ("COMMERCIAL INVOICE", b) (by simp [catScores])
    have hg2 : g ≤ s := hub ("BILL OF LADING", g) (by simp [catScores])
    have hd2 : d ≤ s := hub ("PACKING LIST", d) (by simp [catScores])
    have he2 : e ≤ s := hub ("SHIPMENT ADVICE", e) (by simp [catScores])
    have hf2 : f ≤ s := hub ("COVERING SCHEDULE", f) (by simp [catScores])
    have hsM : s = M := by omega
    subst hsM
    exact ⟨⟨hmem, hlt⟩, hfl⟩

/-- Claim C4: the heuristic detector returns a category exactly when that category
attains the (unique) maximum score among the six categories and the maximum clears
the tiered confidence floor: at least 3 in general, or at least 2 when a header boost
was recorded during scoring.  Ties for the maximum, or a maximum clearing no floor,
give no confident detection (`none`). -/
theorem heuristic_detect_unique_confident_max (doc : String) (c : String) :
    heuristic_detect_document_type doc = some c ↔
      ∃ s : ℕ, (c, s) ∈ catScores (heuristicState doc) ∧
        (∀ p ∈ catScores (heuristicState doc), p.2 ≤ s) ∧
        (∀ p ∈ catScores (heuristicState doc), p.1 ≠ c → p.2 < s) ∧
        (3 ≤ s ∨ (2 ≤ s ∧ 0 < (heuristicState doc).headerBoost)) :=
  decision_iff (heuristicState doc) c

/-- Claim C3: for the scenario document that lists "commercial invoice",
"packing list", "shipment advice" and "bill of lading" as enclosed items after
"please find enclosed the following documents", the heuristic returns
COVERING SCHEDULE, and the final bill-of-lading score ends up strictly below both the
commercial-invoice score and the covering-schedule score. -/
theorem covering_schedule_scenario :
    heuristic_detect_document_type scenarioDoc = some "COVERING SCHEDULE" ∧
    (heuristicState scenarioDoc).bol < (heuristicState scenarioDoc).invoice ∧
    (heuristicState scenarioDoc).bol < (heuristicState scenarioDoc).covering := by
  constructor
  · rfl
  · constructor <;> decide

theorem pyRange_zero (cs : ℕ) : pyRange 0 cs = [] := by
  unfold pyRange
  rcases cs with _ | c
  · rfl
  · rw [Nat.div_eq_of_lt (by omega)]
    rfl

theorem pyRange_map_eq_chunksOf {α : Type*} (cs : ℕ) (hcs : 0 < cs) :
    ∀ l : List α, (pyRange l.length cs).map (fun i => (l.drop i).take cs) = chunksOf cs l := by
  have main : ∀ n, ∀ l : List α, l.length ≤ n →
      (pyRange l.length cs).map (fun i => (l.drop i).take cs) = chunksOf cs l := by
    intro n
    induction n with
    | zero =>
      intro l hl
      have he : l = [] := List.eq_nil_of_length_eq_zero (Nat.le_antisymm hl (Nat.zero_le _))
      subst he
      simp [pyRange_zero, chunksOf]
    | succ n ih =>
      intro l hl
      rcases l with _ | ⟨a, t⟩
      · simp [pyRange_zero, chunksOf]
      · obtain ⟨cs0, rfl⟩ : ∃ m, cs = m + 1 := ⟨cs - 1, by omega⟩
        have hlen : (a :: t).length = t.length + 1 := rfl
        have hLpos : 0 < (a :: t).length := by simp
        have hcount : ((a :: t).length + (cs0 + 1) - 1) / (cs0 + 1) =
            (((a :: t).drop (cs0 + 1)).length + (cs0 + 1) - 1) / (cs0 + 1) + 1 := by
          rw [List.length_drop]
          rcases Nat.le_total (cs0 + 1) (a :: t).length with hle | hlt
          · have e : (a :: t).length + (cs0 + 1) - 1 =
                (((a :: t).length - (cs0 + 1)) + (cs0 + 1) - 1) + (cs0 + 1) := by omega
            rw [e, Nat.add_div_right _ hcs]
          · have e1 : (a :: t).length - (cs0 + 1) = 0 := by omega
            have e2 : (a :: t).length + (cs0 + 1) - 1 =
                ((a :: t).length - 1) + (cs0 + 1) := by omega
            rw [e1, e2, Nat.add_div_right _ hcs, Nat.div_eq_of_lt (by omega),
              Nat.div_eq_of_lt (by omega)]
        unfold pyRange
        rw [hcount, List.range'_succ]
        rw [List.map_cons]
        have hhead : ((a :: t).drop 0).take (cs0 + 1) = (a :: t).take (cs0 + 1) := by
          rw [List.drop_zero]
        rw [hhead]
        have htail : (List.range' (0 + (cs0 + 1)) ((((a :: t).drop (cs0 + 1)).length + (cs0 + 1) - 1) / (cs0 + 1)) (cs0 + 1)).map
              (fun i => ((a :: t).drop i).take (cs0 + 1)) =
            (List.range' 0 ((((a :: t).drop (cs0 + 1)).length + (cs0 + 1) - 1) / (cs0 + 1)) (cs0 + 1)).map
              (fun i => (((a :: t).drop (cs0 + 1)).drop i).take (cs0 + 1)) := by
          rw [Nat.zero_add]
          rw [show (cs0 + 1 : ℕ) = (cs0 + 1) + 0 from rfl]
          rw [← List.map_add_range']
          rw [List.map_map]
          apply List.map_congr_left
          intro i _
          simp only [Function.comp_apply]
          rw [List.drop_drop]
        rw [htail]
        have hih := ih ((a :: t).drop (cs0 + 1)) (by rw [List.length_drop]; omega)
        unfold pyRange at hih
        rw [hih]
        conv_rhs => rw [chunksOf]
  intro l
  exact main l.length l le_rfl

/-- Claim C9: for positive chunk size, `chunk_text` returns exactly the consecutive
non-overlapping windows of the tokenized text (last window possibly shorter), each
joined with single spaces; an empty token sequence yields no chunks. -/
theorem chunk_text_partitions (text : String) (cs : ℕ) (h : 0 < cs) :
    chunk_text text cs = (chunksOf cs (preprocess text.data)).map joinSpace ∧
    (preprocess text.data = [] → chunk_text text cs = []) := by
  have hmain : chunk_text text cs = (chunksOf cs (preprocess text.data)).map joinSpace := by
    unfold chunk_text
    simp only []
    rw [← pyRange_map_eq_chunksOf cs h (preprocess text.data), List.map_map]
    rfl
  refine ⟨hmain, fun he => ?_⟩
  rw [hmain, he]
  simp [chunksOf]

/-- Witness for C9 at the text "a b c" with chunk size 2. -/
theorem chunk_text_partitions_witness :
    0 < 2 ∧ chunk_text "a b c" 2 = (chunksOf 2 (preprocess "a b c".data)).map joinSpace :=
  ⟨by norm_num, (chunk_text_partitions "a b c" 2 (by norm_num)).1⟩

theorem map_getD_range {α : Type*} (l : List α) (d : α) :
    (List.range l.length).map (fun i => l.getD i d) = l := by
  induction l with
  | nil => simp
  | cons a t ih =>
    rw [List.length_cons, List.range_succ_eq_map, List.map_cons, List.map_map]
    have h0 : (a :: t).getD 0 d = a := rfl
    have hs : ((fun i => (a :: t).getD i d) ∘ Nat.succ) = fun i => t.getD i d := by
      funext i
      rfl
    rw [h0, hs, ih]

theorem enum_map_pair_snd {α β : Type*} (l : List α) (f : ℕ × α → β) :
    (l.enum.map (fun p => (f p, p.1))).map Prod.snd = List.range l.length := by
  rw [List.map_map]
  have h : (Prod.snd ∘ fun p : ℕ × α => (f p, p.1)) = Prod.fst := rfl
  rw [h, List.enum_map_fst]

theorem sims_map_snd (doc_text : String) (rule_texts rule_filenames : List String) :
    (similarity_with_index doc_text rule_texts rule_filenames).map Prod.snd =
      List.range (all_chunks rule_texts rule_filenames).length := by
  unfold similarity_with_index
  simp only []
  rw [enum_map_pair_snd]
  unfold processed_chunks
  rw [List.length_map]

/-- Claim C1: `get_top_k_rules` returns the `k` best-ranked chunks: there is an
ordering of the (similarity, index) pairs that is a permutation of the computed
similarity list, sorted by descending similarity with ties broken by ascending chunk
index, such that the result consists of the chunk texts of its first `k` entries,
every selected entry ranks at least as high as every rejected one, and when `k` is at
least the number of chunks the result is a permutation of all chunk texts. -/
theorem get_top_k_rules_selects_top_k (doc_text : String)
    (rule_texts rule_filenames : List String) (k : ℕ) :
    ∃ sorted : List (ℝ × ℕ),
      sorted.Perm (similarity_with_index doc_text rule_texts rule_filenames) ∧
      List.Sorted rank sorted ∧
      (∀ p ∈ sorted.take k, ∀ q ∈ sorted.drop k, rank p q) ∧
      get_top_k_rules doc_text rule_texts rule_filenames k =
        (sorted.take k).map (fun p =>
          ((all_chunks rule_texts rule_filenames).getD p.2 ([], "")).1) ∧
      ((similarity_with_index doc_text rule_texts rule_filenames).length ≤ k →
        (get_top_k_rules doc_text rule_texts rule_filenames k).Perm
          ((all_chunks rule_texts rule_filenames).map Prod.fst)) := by
  set S := similarity_with_index doc_text rule_texts rule_filenames with hS
  set A := all_chunks rule_texts rule_filenames with hA
  have hres : get_top_k_rules doc_text rule_texts rule_filenames k =
      ((List.insertionSort rank S).take k).map (fun p => (A.getD p.2 ([], "")).1) := by
    by_cases hr : rule_texts = []
    · subst hr
      have hSnil : S = [] := by
        rw [hS]
        unfold similarity_with_index processed_chunks all_chunks
        simp
      rw [hSnil]
      simp [get_top_k_rules]
    · unfold get_top_k_rules
      rw [if_neg hr]
  refine ⟨List.insertionSort rank S, List.perm_insertionSort _ _,
    List.sorted_insertionSort _ _, ?_, hres, ?_⟩
  · intro p hp q hq
    exact (List.sorted_insertionSort rank S).rel_of_mem_take_of_mem_drop hp hq
  · intro hk
    have hlen : (List.insertionSort rank S).length = S.length := by
      rw [(List.perm_insertionSort rank S).length_eq]
    have htake : (List.insertionSort rank S).take k = List.insertionSort rank S :=
      List.take_of_length_le (by omega)
    rw [hres, htake]
    have hperm : ((List.insertionSort rank S).map (fun p => (A.getD p.2 ([], "")).1)).Perm
        (S.map (fun p => (A.getD p.2 ([], "")).1)) :=
      (List.perm_insertionSort rank S).map _
    refine hperm.trans ?_
    have h1 : S.map (fun p => (A.getD p.2 ([], "")).1) =
        (S.map Prod.snd).map (fun i => (A.getD i ([], "")).1) := by
      rw [List.map_map]
      rfl
    have h2 : (S.map Prod.snd) = List.range A.length := sims_map_snd _ _ _
    have h3 : (List.range A.length).map (fun i => (A.getD i ([], "")).1) =
        A.map Prod.fst := by
      have hg := map_getD_range A ([], "")
      calc (List.range A.length).map (fun i => (A.getD i ([], "")).1)
          = ((List.range A.length).map (fun i => A.getD i ([], ""))).map Prod.fst := by
            rw [List.map_map]
            rfl
        _ = A.map Prod.fst := by rw [hg]
    rw [h1, h2, h3]

/-- Witness for C1: one rule text producing a single chunk, `k = 1`; the hypothesis
of the final conjunct holds and the result lists all chunks. -/
theorem get_top_k_rules_selects_top_k_witness :
    (similarity_with_index "a" ["b"] ["r"]).length ≤ 1 ∧
    (get_top_k_rules "a" ["b"] ["r"] 1).Perm
      ((all_chunks ["b"] ["r"]).map Prod.fst) := by
  have hlen : (similarity_with_index "a" ["b"] ["r"]).length ≤ 1 := by
    have h := sims_map_snd "a" ["b"] ["r"]
    have he : (similarity_with_index "a" ["b"] ["r"]).length =
        (all_chunks ["b"] ["r"]).length := by
      rw [← List.length_map (similarity_with_index "a" ["b"] ["r"]) Prod.snd, h,
        List.length_range]
    rw [he]
    decide
  obtain ⟨s, -, -, -, -, h5⟩ := get_top_k_rules_selects_top_k "a" ["b"] ["r"] 1
  exact ⟨hlen, h5 hlen⟩
